import Mathlib

/-!
Verification development for the `wrmatch` URL router.

The orchestration layer (`Router.Add`, `Router.Lookup`, `Router.match`,
`Pattern.Add`, `Pattern.MatchURL`, `Params.Param`, the option flags) is
translated from `router.go` / `option.go`.  The radix-trie engine
(`node.addRoute`, `node.getValue`, `node.findCaseInsensitivePath`,
`CleanPath`, `countParams`) is not part of the available sources, so those
operations are modelled from the specification's contracts (spec sections
4.1 to 4.4): lookup matches a path against the registered patterns
(static / `:param` / `*catchAll` segments), the trailing-slash-redirect
signal means the path differs from a registered one only by a trailing
slash, and case-insensitive recovery returns the canonical-case corrected
path of a case-insensitively matching registered pattern.
-/

namespace Wrmatch

/-- `MatchedRoutePathParam` is the Param name under which the path of the
matched route is stored (from `router.go`, line 81). -/
def MatchedRoutePathParam : String := "$matchedRoutePath"

/-- The dynamic (`interface\x7b\x7d`) value stored with a route.  `base`
stands for an arbitrary non-wrapper payload; `matchValue` is the wrapper
struct `matchValue\x7bmatchedPath, Value\x7d` from `router.go` lines 83-87. -/
inductive GoVal where
  | base : String → GoVal
  | matchValue : String → GoVal → GoVal
deriving DecidableEq, Repr

/-- A single URL parameter, `Param` from `router.go`. -/
structure Param where
  Key : String
  Value : String
deriving DecidableEq, Repr

/-- `Params` from `router.go`: ordered slice of parameters. -/
abbrev Params := List Param

/-- `Params.Param` from `router.go` lines 102-109: value of the first
pair whose key matches, else the empty string. -/
def Params.Param (ps : Params) (name : String) : String :=
  match ps with
  | [] => ""
  | p :: rest => if p.Key = name then p.Value else Params.Param rest name

/-! ## Spec-modelled trie engine

The engine state is the list of registered `(pattern, value)` pairs in
registration order; lookup returns the first pattern that matches. -/

/-- A route table of one trie: registration-ordered `(pattern, value)` list. -/
abbrev Routes := List (String × GoVal)

/-- Split a character list at `/` separators (the segment decomposition
used throughout the engine model).  `acc` holds the current segment
reversed. -/
def splitSlashAux : List Char → List Char → List (List Char)
  | [], acc => [acc.reverse]
  | c :: rest, acc =>
    if c = '/' then acc.reverse :: splitSlashAux rest []
    else splitSlashAux rest (c :: acc)

/-- Segment decomposition of a path or pattern. -/
def splitSlash (p : List Char) : List (List Char) :=
  splitSlashAux p []

/-- Rejoin segments with `/` separators (inverse of `splitSlash` on
slash-free segments). -/
def joinSegsL : List (List Char) → List Char
  | [] => []
  | [s] => s
  | s :: rest => s ++ '/' :: joinSegsL rest

/-- A pattern segment declaring a catch-all parameter (sigil `*`). -/
def isCatchSeg (s : List Char) : Bool := s.head? = some '*'

/-- A pattern segment declaring a named parameter (sigil `:`). -/
def isParamSeg (s : List Char) : Bool := s.head? = some ':'

/-- Modelled from the spec: segment-level pattern match (spec 4.3, the
missing `node.getValue` walk).  Static segments compare byte-for-byte, a
parameter segment captures one non-empty path segment, a catch-all
segment (legal only as the final pattern segment) captures the whole
remainder including its leading slash.  Captures are returned
left-to-right. -/
def segMatch : List (List Char) → List (List Char) → Option Params
  | [], [] => some []
  | [], _ :: _ => none
  | _ :: _, [] => none
  | s :: ps, t :: ts' =>
    if isCatchSeg s then
      if ps = [] then
        some [⟨(s.drop 1).asString, ('/' :: joinSegsL (t :: ts')).asString⟩]
      else none
    else if isParamSeg s then
      if t = [] then none
      else (segMatch ps ts').map (⟨(s.drop 1).asString, t.asString⟩ :: ·)
    else if s = t then segMatch ps ts'
    else none

/-- Modelled from the spec: whole-pattern match of a path (spec 4.3). -/
def patMatch (pat path : String) : Option Params :=
  segMatch (splitSlash pat.data) (splitSlash path.data)

/-- First registered route whose pattern matches the path ("only explicit
matches": at most one pattern can match, so first is the unique one). -/
def findMatch : Routes → String → Option (GoVal × Params)
  | [], _ => none
  | (pat, v) :: rest, path =>
    match patMatch pat path with
    | some ps => some (v, ps)
    | none => findMatch rest path

/-- Trailing-slash toggle, from `router.go` lines 298-302: drop the
trailing slash when present (and the path is longer than `/`), otherwise
append one. -/
def toggleSlashL (p : List Char) : List Char :=
  if p.length > 1 ∧ p.getLast? = some '/' then p.dropLast else p ++ ['/']

/-- String-level trailing-slash toggle. -/
def toggleSlash (p : String) : String :=
  (toggleSlashL p.data).asString

/-- Modelled from the spec: the missing `node.getValue` contract
(spec 4.3): on a hit, the value and the left-to-right captures with the
redirect flag false; on a miss, the trailing-slash-redirect flag is set
iff the path differs from a registered one only by a trailing slash. -/
def getValue (routes : Routes) (path : String) : Option GoVal × Params × Bool :=
  match findMatch routes path with
  | some (v, ps) => (some v, ps, false)
  | none => (none, [], (findMatch routes (toggleSlash path)).isSome)

/-- ASCII-style case folding used by the recovery walk. -/
def lowerSeg (s : List Char) : List Char := s.map Char.toLower

/-- Modelled from the spec: segment-level case-insensitive match
(spec 4.4).  Returns the corrected segments: canonical-case pattern
statics, parameter captures kept as supplied. -/
def segMatchCI : List (List Char) → List (List Char) → Option (List (List Char))
  | [], [] => some []
  | [], _ :: _ => none
  | _ :: _, [] => none
  | s :: ps, t :: ts' =>
    if isCatchSeg s then
      if ps = [] then some (t :: ts') else none
    else if isParamSeg s then
      if t = [] then none
      else (segMatchCI ps ts').map (t :: ·)
    else if lowerSeg s = lowerSeg t then (segMatchCI ps ts').map (s :: ·)
    else none

/-- First route case-insensitively matching the given path segments. -/
def findCI : Routes → List (List Char) → Option (List (List Char))
  | [], _ => none
  | (pat, _) :: rest, segs =>
    match segMatchCI (splitSlash pat.data) segs with
    | some fixed => some fixed
    | none => findCI rest segs

/-- Modelled from the spec: the missing
`node.findCaseInsensitivePath` contract (spec 4.4): corrected
(canonical-case) path of a case-insensitively matching registered
pattern; when `fixTrailingSlash` is set and the exact form fails, retry
once with the trailing slash toggled. -/
def findCaseInsensitivePath (routes : Routes) (path : String)
    (fixTrailingSlash : Bool) : Option String :=
  match findCI routes (splitSlash path.data) with
  | some fixed => some (joinSegsL fixed).asString
  | none =>
    if fixTrailingSlash then
      (findCI routes (splitSlash (toggleSlash path).data)).map
        (fun fixed => (joinSegsL fixed).asString)
    else none

/-- Left-to-right segment cleaning: drop empty and `.` segments, let `..`
pop the previous kept segment (never escaping the root).  `stack` holds
the kept segments in reverse. -/
def cleanStack : List (List Char) → List (List Char) → List (List Char)
  | stack, [] => stack
  | stack, s :: rest =>
    if s = [] ∨ s = ['.'] then cleanStack stack rest
    else if s = ['.', '.'] then cleanStack (stack.drop 1) rest
    else cleanStack (s :: stack) rest

/-- Modelled from the spec: the missing `CleanPath` (spec 4.1): an input
not beginning with `/` (including the empty string) is returned as `/`;
otherwise `.` segments are removed, `..` segments pop the previous
resolved segment without escaping the root, runs of slashes collapse,
and a trailing slash is preserved when one was present and segments
remain. -/
def CleanPath (p : String) : String :=
  if p.data.head? ≠ some '/' then "/"
  else
    let stack := (cleanStack [] (splitSlash p.data)).reverse
    let trailing := p.data.getLast? = some '/'
    (('/' :: joinSegsL stack) ++ (if trailing ∧ stack ≠ [] then ['/'] else [])).asString

/-- Modelled from the spec: the missing `countParams`: number of pattern
segments declaring a named or catch-all parameter.  Its `uint16` return
type in Go truncates at the call site in `Router.Add` (mod 2^16). -/
def countParams (pat : String) : Nat :=
  ((splitSlash pat.data).filter (fun s => isParamSeg s ∨ isCatchSeg s)).length

/-- A catch-all segment in any non-final position of the pattern
(spec 4.2: a catch-all is only legal as the final segment — fatal
conflict otherwise). -/
def hasMisplacedCatchAll : List (List Char) → Bool
  | [] => false
  | [_] => false
  | s :: rest => isCatchSeg s || hasMisplacedCatchAll rest

/-- Modelled from the spec: whole-pattern form of the misplaced
catch-all check. -/
def catchAllMisplaced (pat : String) : Bool :=
  hasMisplacedCatchAll (splitSlash pat.data)

/-- Modelled from the spec: registration conflict between two patterns
(spec 4.2, the missing `node.addRoute` conflict detection).  Walking the
identical common segment prefix: identical patterns are a duplicate
registration; at the first differing position, a wildcard (parameter or
catch-all) on either side is a fatal conflict with its sibling (two
different parameter names, or a wildcard against a static segment),
while two differing statics branch without conflict; one pattern
extending past the end of the other is no conflict. -/
def segsConflict : List (List Char) → List (List Char) → Bool
  | [], [] => true
  | [], _ :: _ => false
  | _ :: _, [] => false
  | s :: ps, t :: ts =>
    if s = t then segsConflict ps ts
    else isParamSeg s || isCatchSeg s || isParamSeg t || isCatchSeg t

/-- String-level pattern conflict. -/
def patConflict (newPat oldPat : String) : Bool :=
  segsConflict (splitSlash newPat.data) (splitSlash oldPat.data)

/-- Modelled from the spec: whether registering `path` into `routes`
is a fatal registration conflict (spec 4.2). -/
def addConflict (routes : Routes) (path : String) : Bool :=
  catchAllMisplaced path || routes.any (fun pv => patConflict path pv.1)

/-! ## Router orchestration (translated from `router.go` / `option.go`) -/

/-- `Router` from `router.go` lines 118-126.  The per-method trees map is
an association list method-key to route table; `paramsNew` is only an
allocation hint in Go and carries no observable state, so it is not
modelled.  The three flags are the embedded `Options`. -/
structure Router where
  trees : List (String × Routes)
  maxParams : Nat
  saveMatchedRoutePath : Bool
  redirectTrailingSlash : Bool
  redirectFixedPath : Bool
deriving DecidableEq, Repr

/-- `New` from `router.go` lines 130-141 with no options applied:
path auto-correction, including trailing slashes, is enabled by default. -/
def Router.New : Router :=
  { trees := [], maxParams := 0, saveMatchedRoutePath := false,
    redirectTrailingSlash := true, redirectFixedPath := true }

/-- Association-list read of `r.trees[method]` (a missing key is Go's
nil root). -/
def lookupTree : List (String × Routes) → String → Option Routes
  | [], _ => none
  | (m, rs) :: rest, method => if m = method then some rs else lookupTree rest method

/-- Association-list update appending a route under a method key,
creating the tree on first registration (from `router.go` lines 218-228;
the trie insertion itself is modelled as appending to the route list). -/
def insertRoute : List (String × Routes) → String → String → GoVal → List (String × Routes)
  | [], method, path, v => [(method, [(path, v)])]
  | (m, rs) :: rest, method, path, v =>
    if m = method then (m, rs ++ [(path, v)]) :: rest
    else (m, rs) :: insertRoute rest method path v

/-- The distinct registration-time panics: the validation panics of
`Router.Add` / `Pattern.Add` (`router.go` lines 203-211 and 470-475)
and the fatal registration conflicts raised inside the trie insertion
(spec 4.2). -/
inductive AddErr where
  | emptyMethod
  | pathNoSlash (path : String)
  | nilValue
  | conflict (path : String)
deriving DecidableEq, Repr

/-- The route table currently registered under a method key (empty when
the method has no tree yet). -/
def routesFor (trees : List (String × Routes)) (method : String) : Routes :=
  match lookupTree trees method with
  | some rs => rs
  | none => []

/-- `Router.Add` from `router.go` lines 200-243.  A panic is an
`AddErr`; the value argument is `Option GoVal` with `none` for Go's
nil.  Checks run in source order: method, path, value; then the value
is wrapped when `saveMatchedRoutePath` is set, the route is inserted by
`addRoute` (whose spec-4.2 registration conflicts are modelled by
`addConflict`), and `maxParams` is raised to the pattern's parameter
count plus the synthetic-parameter count when it exceeds the cached
maximum.  `varsCount` and `maxParams` are `uint16` in Go
(lines 123, 201), so the count arithmetic wraps mod 2^16. -/
def Router.Add (r : Router) (method path : String) (value : Option GoVal) :
    Except AddErr Router :=
  if method = "" then .error .emptyMethod
  else if path.data.head? ≠ some '/' then .error (.pathNoSlash path)
  else
    match value with
    | none => .error .nilValue
    | some v =>
      let varsCount : Nat := if r.saveMatchedRoutePath then 1 else 0
      let v' := if r.saveMatchedRoutePath then GoVal.matchValue path v else v
      if addConflict (routesFor r.trees method) path then .error (.conflict path)
      else
        let paramsCount := countParams path % 65536
        let newMax := (paramsCount + varsCount) % 65536
        .ok { r with
          trees := insertRoute r.trees method path v'
          maxParams := if newMax > r.maxParams then newMax else r.maxParams }

/-- Run a sequence of `Router.Add` calls; a call that panics registers
nothing (in Go the program would abort there, so the remaining calls
model independent registration attempts). -/
def runAdds : Router → List (String × String × GoVal) → Router
  | r, [] => r
  | r, (m, p, v) :: rest =>
    match r.Add m p (some v) with
    | .ok r' => runAdds r' rest
    | .error _ => runAdds r rest

/-- `Router.Lookup` from `router.go` lines 250-262: read the method's
tree, return the engine triple; a missing tree yields the empty result
with the redirect flag false. -/
def Router.Lookup (r : Router) (method path : String) :
    Option GoVal × Params × Bool :=
  match lookupTree r.trees method with
  | some routes => getValue routes path
  | none => (none, [], false)

/-- State-passing embedding of `Router.Lookup`: the Go method's receiver
after the call (the source performs no write to any field of `r`). -/
def Router.LookupS (r : Router) (method path : String) :
    (Option GoVal × Params × Bool) × Router :=
  (r.Lookup method path, r)

/-- Result of `Router.match` / `Router.Match`: the returned triple, the
`saveMatchedRoutePath` type-assertion panic, or fuel exhaustion (used
only to bound the modelled recursion of `router.go` line 303/309). -/
inductive MRes where
  | ok : Option GoVal → Params → Bool → MRes
  | panicked : MRes
  | fuelOut : MRes
deriving DecidableEq, Repr

/-- The value-found branch of `Router.match` (`router.go` lines
279-295): when `saveMatchedRoutePath` is set, a wrapped value is
unwrapped and the pattern string appended as a synthetic parameter after
the real captures, while an unwrapped value is the type-assertion panic;
otherwise the value and captures are returned as-is. -/
def unwrapResult (r : Router) (v : GoVal) (ps : Params) : MRes :=
  if r.saveMatchedRoutePath then
    match v with
    | .matchValue mp vv => .ok (some vv) (ps ++ [⟨MatchedRoutePathParam, mp⟩]) true
    | .base _ => .panicked
  else .ok (some v) ps true

/-- The body of `Router.match` from `router.go` lines 276-315, with the
recursion through `r.Match` (lines 303, 309) abstracted as `recur`.
On a miss, redirection is attempted only when the method is not CONNECT
and the path is not `/`: first the trailing-slash toggle when the
engine flagged it and `redirectTrailingSlash` is set, else the
clean-path plus case-insensitive fix when `redirectFixedPath` is set. -/
def matchStep (r : Router) (method path : String) (recur : String → MRes) : MRes :=
  match lookupTree r.trees method with
  | none => .ok none [] false
  | some routes =>
    match getValue routes path with
    | (some v, ps, _) => unwrapResult r v ps
    | (none, _, tsr) =>
      if method ≠ "CONNECT" ∧ path ≠ "/" then
        if tsr ∧ r.redirectTrailingSlash then
          recur (toggleSlash path)
        else if r.redirectFixedPath then
          match findCaseInsensitivePath routes (CleanPath path) r.redirectTrailingSlash with
          | some fixed => recur fixed
          | none => .ok none [] false
        else .ok none [] false
      else .ok none [] false

/-- `Router.match` with an explicit fuel bound on its self-recursion
(each unit of fuel is one resolution attempt). -/
def Router.matchFuel : Nat → Router → String → String → MRes
  | 0, _, _, _ => .fuelOut
  | fuel + 1, r, method, path => matchStep r method path (Router.matchFuel fuel r method)

/-- `Router.Match` from `router.go` lines 265-267.  Fuel 2 is exactly
the initial resolution plus a single redirect hop; the fuel-stability
theorem below shows any larger fuel computes the same result. -/
def Router.Match (r : Router) (method path : String) : MRes :=
  Router.matchFuel 2 r method path

/-- One direct resolution with no redirect policy: engine lookup plus
the value-found branch of `Router.match`.  Used to state that each
redirect hop re-resolves exactly once. -/
def resolveOnce (r : Router) (method path : String) : MRes :=
  match lookupTree r.trees method with
  | none => .ok none [] false
  | some routes =>
    match findMatch routes path with
    | some (v, ps) => unwrapResult r v ps
    | none => .ok none [] false

/-! ## Pattern (translated from the `pattern.go` part of the sources) -/

/-- `Pattern`: a single route table with the embedded `Options`. -/
structure Pattern where
  routes : Routes
  saveMatchedRoutePath : Bool
  redirectTrailingSlash : Bool
  redirectFixedPath : Bool
deriving DecidableEq, Repr

/-- `NewPattern` with no options applied. -/
def Pattern.NewPattern : Pattern :=
  { routes := [], saveMatchedRoutePath := false,
    redirectTrailingSlash := true, redirectFixedPath := true }

/-- `Pattern.Add` (source lines 469-482): path and value checks in
source order, wrapping when `saveMatchedRoutePath` is set, then
`addRoute` insertion with its spec-4.2 registration conflicts modelled
by `addConflict` (no method key, no `maxParams` bookkeeping). -/
def Pattern.Add (pt : Pattern) (path : String) (value : Option GoVal) :
    Except AddErr Pattern :=
  if path.data.head? ≠ some '/' then .error (.pathNoSlash path)
  else
    match value with
    | none => .error .nilValue
    | some v =>
      let v' := if pt.saveMatchedRoutePath then GoVal.matchValue path v else v
      if addConflict pt.routes path then .error (.conflict path)
      else .ok { pt with routes := pt.routes ++ [(path, v')] }

/-- Result of `Pattern.MatchURL`: value, matched route path, matched
flag; or the type-assertion panic; or fuel exhaustion. -/
inductive PRes where
  | ok : Option GoVal → String → Bool → PRes
  | panicked : PRes
  | fuelOut : PRes
deriving DecidableEq, Repr

/-- The body of `Pattern.MatchURL` (source lines 485-515) with its
self-recursion abstracted as `recur`.  Redirection is attempted only
when the path is not `/`. -/
def matchURLStep (pt : Pattern) (path : String) (recur : String → PRes) : PRes :=
  match getValue pt.routes path with
  | (some v, _, _) =>
    if pt.saveMatchedRoutePath then
      match v with
      | .matchValue mp vv => .ok (some vv) mp true
      | .base _ => .panicked
    else .ok (some v) "" true
  | (none, _, tsr) =>
    if path ≠ "/" then
      if tsr ∧ pt.redirectTrailingSlash then
        recur (toggleSlash path)
      else if pt.redirectFixedPath then
        match findCaseInsensitivePath pt.routes (CleanPath path) pt.redirectTrailingSlash with
        | some fixed => recur fixed
        | none => .ok none "" false
      else .ok none "" false
    else .ok none "" false

/-- `Pattern.MatchURL` with an explicit fuel bound on its
self-recursion. -/
def Pattern.matchURLFuel : Nat → Pattern → String → PRes
  | 0, _, _ => .fuelOut
  | fuel + 1, pt, path => matchURLStep pt path (Pattern.matchURLFuel fuel pt)

/-- `Pattern.MatchURL` at the proven-sufficient fuel. -/
def Pattern.MatchURL (pt : Pattern) (path : String) : PRes :=
  Pattern.matchURLFuel 2 pt path

/-- One direct resolution of `Pattern.MatchURL` with no redirect policy. -/
def resolveOnceP (pt : Pattern) (path : String) : PRes :=
  match findMatch pt.routes path with
  | some (v, _) =>
    if pt.saveMatchedRoutePath then
      match v with
      | .matchValue mp vv => .ok (some vv) mp true
      | .base _ => .panicked
    else .ok (some v) "" true
  | none => .ok none "" false

/-- `GET` shortcut from `router.go` lines 144-146 (`http.MethodGet` is
the literal string "GET"). -/
def Router.GET (r : Router) (path : String) (value : Option GoVal) : Except AddErr Router :=
  r.Add "GET" path value

/-- `POST` shortcut from `router.go` lines 159-161. -/
def Router.POST (r : Router) (path : String) (value : Option GoVal) : Except AddErr Router :=
  r.Add "POST" path value

/-- `DELETE` shortcut from `router.go` lines 174-176. -/
def Router.DELETE (r : Router) (path : String) (value : Option GoVal) : Except AddErr Router :=
  r.Add "DELETE" path value

/-- Whether a registration call returned normally (`true`) or panicked
(`false`). -/
def exceptOk {α : Type} : Except AddErr α → Bool
  | .ok _ => true
  | .error _ => false

/-! ## Concrete fixtures used by the witness theorems -/

/-- Run an `Add` that is known to succeed (test-harness helper). -/
def addOk (r : Router) (m p : String) (v : GoVal) : Router :=
  match r.Add m p (some v) with
  | .ok r' => r'
  | .error _ => r

/-- Router of the trailing-slash symmetry test (`router_test.go` lines
127-139, adapted to `/get` and `/post/` as in the spec). -/
def c6Router : Router :=
  addOk (addOk Router.New "GET" "/get" (.base "g")) "GET" "/post/" (.base "p")

/-- Router with one static GET route, used to exhibit a clean miss. -/
def c5Router : Router := addOk Router.New "GET" "/user" (.base "u")

/-- Save-mode router holding one wrapped and one unwrapped entry. -/
def wRouterSave : Router :=
  { Router.New with
    saveMatchedRoutePath := true
    trees := [("GET",
      [("/wrapped/:name", .matchValue "/wrapped/:name" (.base "wv")),
       ("/plain", .base "pv")])] }

/-- `wRouterSave` after one more registration. -/
def wRouterSaveAdded : Router :=
  match wRouterSave.Add "GET" "/new" (some (.base "nv")) with
  | .ok r' => r'
  | .error _ => wRouterSave

/-- Router with default redirect options and one route, missed by a
wrong-case request. -/
def wRouterFix : Router := addOk Router.New "GET" "/path" (.base "/path")

/-- Pattern with default redirect options and one route. -/
def wPatternFix : Pattern :=
  match Pattern.NewPattern.Add "/path" (some (.base "/path")) with
  | .ok pt => pt
  | .error _ => Pattern.NewPattern

/-- Router with one CONNECT route, used for the CONNECT exemption. -/
def wConnectRouter : Router := addOk Router.New "CONNECT" "/path" (.base "p")

/-- `n` copies of the pattern piece `/:a`. -/
def repSeg : Nat → List Char
  | 0 => []
  | n + 1 => '/' :: ':' :: 'a' :: repSeg n

/-- A pattern with 2^16 named parameters: its `uint16` parameter count
wraps to zero in `Router.Add`. -/
def bigPat : String := (repSeg 65536).asString

/-! ## Engine lemmas -/

theorem data_asString (l : List Char) : (List.asString l).data = l := rfl

/-- Segment lists carrying no separator character. -/
def SegsOk (segs : List (List Char)) : Prop := ∀ s ∈ segs, '/' ∉ s

theorem splitSlashAux_ne_nil (p : List Char) (acc : List Char) :
    splitSlashAux p acc ≠ [] := by
  induction p generalizing acc with
  | nil => simp [splitSlashAux]
  | cons c rest ih =>
    simp only [splitSlashAux]
    split
    · simp
    · exact ih (c :: acc)

theorem splitSlash_ne_nil (p : List Char) : splitSlash p ≠ [] :=
  splitSlashAux_ne_nil p []

theorem splitSlashAux_slashFree (p : List Char) (acc : List Char) (h : '/' ∉ acc) :
    SegsOk (splitSlashAux p acc) := by
  induction p generalizing acc with
  | nil =>
    intro s hs
    simp only [splitSlashAux, List.mem_singleton] at hs
    subst hs
    simpa using h
  | cons c rest ih =>
    intro s hs
    simp only [splitSlashAux] at hs
    by_cases hc : c = '/'
    · rw [if_pos hc] at hs
      rcases List.mem_cons.mp hs with h1 | h2
      · subst h1; simpa using h
      · exact ih [] (by simp) s h2
    · rw [if_neg hc] at hs
      refine ih (c :: acc) ?_ s hs
      intro hmem
      rcases List.mem_cons.mp hmem with h1 | h2
      · exact hc h1.symm
      · exact h h2

theorem splitSlash_slashFree (p : List Char) : SegsOk (splitSlash p) :=
  splitSlashAux_slashFree p [] (by simp)

theorem splitSlashAux_append (x r : List Char) (acc : List Char) (hx : '/' ∉ x) :
    splitSlashAux (x ++ r) acc = splitSlashAux r (x.reverse ++ acc) := by
  induction x generalizing acc with
  | nil => simp
  | cons c x' ih =>
    have hc : ¬ c = '/' := fun h => hx (h ▸ List.mem_cons_self c x')
    simp only [List.cons_append, splitSlashAux, if_neg hc]
    change splitSlashAux (x' ++ r) (c :: acc) = _
    rw [ih (c :: acc) (fun h => hx (List.mem_cons_of_mem c h))]
    simp

theorem splitSlashAux_noSlash (x : List Char) (acc : List Char) (hx : '/' ∉ x) :
    splitSlashAux x acc = [acc.reverse ++ x] := by
  induction x generalizing acc with
  | nil => simp [splitSlashAux]
  | cons c x' ih =>
    have hc : ¬ c = '/' := fun h => hx (h ▸ List.mem_cons_self c x')
    simp only [splitSlashAux, if_neg hc]
    rw [ih (c :: acc) (fun h => hx (List.mem_cons_of_mem c h))]
    simp

/-- Rejoining slash-free segments and re-splitting recovers the segments. -/
theorem splitSlash_joinSegsL (segs : List (List Char)) (h : SegsOk segs)
    (hne : segs ≠ []) : splitSlash (joinSegsL segs) = segs := by
  induction segs with
  | nil => exact absurd rfl hne
  | cons x rest ih =>
    cases rest with
    | nil =>
      simp only [joinSegsL, splitSlash]
      rw [splitSlashAux_noSlash x [] (h x (List.mem_cons_self x []))]
      simp
    | cons y rest' =>
      simp only [joinSegsL, splitSlash]
      rw [splitSlashAux_append x ('/' :: joinSegsL (y :: rest')) []
            (h x (List.mem_cons_self x _))]
      simp only [splitSlashAux, if_pos rfl]
      rw [show splitSlashAux (joinSegsL (y :: rest')) [] = splitSlash (joinSegsL (y :: rest')) from rfl]
      rw [ih (fun s hs => h s (List.mem_cons_of_mem x hs)) (by simp)]
      simp

/-- The case-insensitive walk produces slash-free, non-empty corrected
segments that the exact matcher accepts. -/
theorem segMatchCI_props : ∀ (ps ts fixed : List (List Char)),
    SegsOk ps → SegsOk ts → segMatchCI ps ts = some fixed →
    SegsOk fixed ∧ (ps ≠ [] → fixed ≠ []) ∧ (segMatch ps fixed).isSome := by
  intro ps
  induction ps with
  | nil =>
    intro ts fixed _ _ hci
    cases ts with
    | nil =>
      simp only [segMatchCI, Option.some.injEq] at hci
      subst hci
      exact ⟨fun s hs => absurd hs (List.not_mem_nil s), fun h => absurd rfl h, by simp [segMatch]⟩
    | cons t ts' => simp [segMatchCI] at hci
  | cons s ps ih =>
    intro ts fixed hps hts hci
    cases ts with
    | nil => simp [segMatchCI] at hci
    | cons t ts' =>
      simp only [segMatchCI] at hci
      have hts' : SegsOk ts' := fun u hu => hts u (List.mem_cons_of_mem t hu)
      have htok : '/' ∉ t := hts t (List.mem_cons_self t ts')
      have hps' : SegsOk ps := fun u hu => hps u (List.mem_cons_of_mem s hu)
      by_cases hc : isCatchSeg s = true
      · rw [if_pos hc] at hci
        by_cases hp : ps = []
        · rw [if_pos hp] at hci
          simp only [Option.some.injEq] at hci
          subst hci
          refine ⟨hts, fun _ => by simp, ?_⟩
          subst hp
          simp [segMatch, hc]
        · rw [if_neg hp] at hci
          simp at hci
      · rw [if_neg hc] at hci
        by_cases hq : isParamSeg s = true
        · rw [if_pos hq] at hci
          by_cases hte : t = []
          · rw [if_pos hte] at hci; simp at hci
          · rw [if_neg hte] at hci
            rcases Option.map_eq_some'.mp hci with ⟨fixed', hci', rfl⟩
            obtain ⟨h1, _, h3⟩ := ih ts' fixed' hps' hts' hci'
            refine ⟨?_, fun _ => by simp, ?_⟩
            · intro u hu
              rcases List.mem_cons.mp hu with h | h
              · exact h ▸ htok
              · exact h1 u h
            · rcases Option.isSome_iff_exists.mp h3 with ⟨w, hw⟩
              simp [segMatch, hc, hq, if_neg hte, hw]
        · rw [if_neg hq] at hci
          by_cases hl : lowerSeg s = lowerSeg t
          · rw [if_pos hl] at hci
            rcases Option.map_eq_some'.mp hci with ⟨fixed', hci', rfl⟩
            obtain ⟨h1, _, h3⟩ := ih ts' fixed' hps' hts' hci'
            refine ⟨?_, fun _ => by simp, ?_⟩
            · intro u hu
              rcases List.mem_cons.mp hu with h | h
              · exact h ▸ hps s (List.mem_cons_self s ps)
              · exact h1 u h
            · rcases Option.isSome_iff_exists.mp h3 with ⟨w, hw⟩
              simp [segMatch, hc, hq, hw]
          · rw [if_neg hl] at hci; simp at hci

/-- A successful `findCI` comes from a registered pattern. -/
theorem findCI_mem : ∀ (routes : Routes) (segs fixed : List (List Char)),
    findCI routes segs = some fixed →
    ∃ pv ∈ routes, segMatchCI (splitSlash pv.1.data) segs = some fixed := by
  intro routes
  induction routes with
  | nil => intro segs fixed h; simp [findCI] at h
  | cons pv rest ih =>
    intro segs fixed h
    obtain ⟨pat, v⟩ := pv
    simp only [findCI] at h
    cases hm : segMatchCI (splitSlash pat.data) segs with
    | some f => rw [hm] at h
                exact ⟨(pat, v), List.mem_cons_self _ _, by simp at h; rw [hm, h]⟩
    | none =>
      rw [hm] at h
      rcases ih segs fixed h with ⟨pv', hmem, hci⟩
      exact ⟨pv', List.mem_cons_of_mem _ hmem, hci⟩

/-- A route whose pattern matches makes the route-table lookup succeed. -/
theorem findMatch_isSome_of_mem : ∀ (routes : Routes) (pat : String) (v : GoVal)
    (q : String), (pat, v) ∈ routes → (patMatch pat q).isSome →
    (findMatch routes q).isSome := by
  intro routes
  induction routes with
  | nil => intro pat v q hmem _; exact absurd hmem (List.not_mem_nil _)
  | cons pv rest ih =>
    intro pat v q hmem hsome
    obtain ⟨pat0, v0⟩ := pv
    simp only [findMatch]
    cases hm : patMatch pat0 q with
    | some ps => simp
    | none =>
      rcases List.mem_cons.mp hmem with h | h
      · obtain ⟨h1, h2⟩ := Prod.mk.injEq .. ▸ h
        exact absurd hsome (by injection h with h1 h2; rw [← h1] at hm; simp [hm])
      · exact ih pat v q h hsome

/-- Soundness of the modelled case-insensitive recovery: the corrected
path it returns is matched by some registered route, so the follow-up
resolution cannot miss. -/
theorem findCaseInsensitivePath_sound (routes : Routes) (path : String)
    (fix : Bool) (fixedStr : String) :
    findCaseInsensitivePath routes path fix = some fixedStr →
    (findMatch routes fixedStr).isSome := by
  intro h
  simp only [findCaseInsensitivePath] at h
  have main : ∀ segs fixed, SegsOk segs → findCI routes segs = some fixed →
      (findMatch routes (joinSegsL fixed).asString).isSome := by
    intro segs fixed hsegs hci
    rcases findCI_mem routes segs fixed hci with ⟨⟨pat, v⟩, hmem, hciseg⟩
    obtain ⟨hfree, hne, hmatch⟩ := segMatchCI_props (splitSlash pat.data) segs fixed
      (splitSlash_slashFree pat.data) hsegs hciseg
    have hfne : fixed ≠ [] := hne (splitSlash_ne_nil pat.data)
    refine findMatch_isSome_of_mem routes pat v _ hmem ?_
    unfold patMatch
    rw [data_asString, splitSlash_joinSegsL fixed hfree hfne]
    exact hmatch
  cases h1 : findCI routes (splitSlash path.data) with
  | some fixed =>
    rw [h1] at h
    simp only [Option.some.injEq] at h
    subst h
    exact main _ fixed (splitSlash_slashFree path.data) h1
  | none =>
    rw [h1] at h
    cases fix with
    | false => simp at h
    | true =>
      simp only [if_pos rfl] at h
      rcases Option.map_eq_some'.mp h with ⟨fixed, h2, rfl⟩
      exact main _ fixed (splitSlash_slashFree (toggleSlash path).data) h2

/-! ## Router-level lemmas -/

theorem matchFuel_succ (fuel : Nat) (r : Router) (method path : String) :
    Router.matchFuel (fuel + 1) r method path =
      matchStep r method path (Router.matchFuel fuel r method) := rfl

/-- When the route-table lookup succeeds, `Router.match` needs no
redirect hop: any positive fuel computes the direct resolution. -/
theorem matchFuel_found (fuel : Nat) (r : Router) (method path : String)
    (routes : Routes) (ht : lookupTree r.trees method = some routes)
    (hm : (findMatch routes path).isSome) :
    Router.matchFuel (fuel + 1) r method path = resolveOnce r method path := by
  rcases Option.isSome_iff_exists.mp hm with ⟨⟨v, ps⟩, hv⟩
  rw [matchFuel_succ]
  simp [matchStep, resolveOnce, ht, getValue, hv]

/-- `Router.match` is fuel-stable from fuel 2 on: the initial resolution
plus at most one redirect hop settle the result. -/
theorem matchFuel_stable (n m : Nat) (r : Router) (method path : String) :
    Router.matchFuel (n + 2) r method path = Router.matchFuel (m + 2) r method path := by
  show Router.matchFuel (n + 1 + 1) r method path = Router.matchFuel (m + 1 + 1) r method path
  rw [matchFuel_succ, matchFuel_succ]
  simp only [matchStep]
  cases ht : lookupTree r.trees method with
  | none => rfl
  | some routes =>
    cases hv : findMatch routes path with
    | some vp => simp [getValue, hv]
    | none =>
      simp only [getValue, hv]
      by_cases hg : method ≠ "CONNECT" ∧ path ≠ "/"
      · rw [if_pos hg, if_pos hg]
        by_cases htsr : (findMatch routes (toggleSlash path)).isSome = true ∧
            r.redirectTrailingSlash = true
        · rw [if_pos htsr, if_pos htsr,
            matchFuel_found n r method (toggleSlash path) routes ht htsr.1,
            matchFuel_found m r method (toggleSlash path) routes ht htsr.1]
        · rw [if_neg htsr, if_neg htsr]
          by_cases hfp : r.redirectFixedPath = true
          · rw [if_pos hfp, if_pos hfp]
            cases hci : findCaseInsensitivePath routes (CleanPath path)
                r.redirectTrailingSlash with
            | none => rfl
            | some fixed =>
              have hs := findCaseInsensitivePath_sound routes (CleanPath path) _ fixed hci
              show Router.matchFuel (n + 1) r method fixed =
                Router.matchFuel (m + 1) r method fixed
              rw [matchFuel_found n r method fixed routes ht hs,
                  matchFuel_found m r method fixed routes ht hs]
          · rw [if_neg hfp, if_neg hfp]
      · rw [if_neg hg, if_neg hg]

/-- The direct resolution never runs out of fuel. -/
theorem resolveOnce_ne_fuelOut (r : Router) (method path : String) :
    resolveOnce r method path ≠ .fuelOut := by
  unfold resolveOnce
  split
  · simp
  · split
    · simp only [unwrapResult]
      split
      · split <;> simp
      · simp
    · simp

theorem matchURLFuel_succ (fuel : Nat) (pt : Pattern) (path : String) :
    Pattern.matchURLFuel (fuel + 1) pt path =
      matchURLStep pt path (Pattern.matchURLFuel fuel pt) := rfl

/-- Pattern analogue of `matchFuel_found`. -/
theorem matchURLFuel_found (fuel : Nat) (pt : Pattern) (path : String)
    (hm : (findMatch pt.routes path).isSome) :
    Pattern.matchURLFuel (fuel + 1) pt path = resolveOnceP pt path := by
  rcases Option.isSome_iff_exists.mp hm with ⟨⟨v, ps⟩, hv⟩
  rw [matchURLFuel_succ]
  simp [matchURLStep, resolveOnceP, getValue, hv]

/-- Pattern analogue of `matchFuel_stable`. -/
theorem matchURLFuel_stable (n m : Nat) (pt : Pattern) (path : String) :
    Pattern.matchURLFuel (n + 2) pt path = Pattern.matchURLFuel (m + 2) pt path := by
  show Pattern.matchURLFuel (n + 1 + 1) pt path = Pattern.matchURLFuel (m + 1 + 1) pt path
  rw [matchURLFuel_succ, matchURLFuel_succ]
  simp only [matchURLStep]
  cases hv : findMatch pt.routes path with
  | some vp => simp [getValue, hv]
  | none =>
    simp only [getValue, hv]
    by_cases hg : path ≠ "/"
    · rw [if_pos hg, if_pos hg]
      by_cases htsr : (findMatch pt.routes (toggleSlash path)).isSome = true ∧
          pt.redirectTrailingSlash = true
      · rw [if_pos htsr, if_pos htsr,
          matchURLFuel_found n pt (toggleSlash path) htsr.1,
          matchURLFuel_found m pt (toggleSlash path) htsr.1]
      · rw [if_neg htsr, if_neg htsr]
        by_cases hfp : pt.redirectFixedPath = true
        · rw [if_pos hfp, if_pos hfp]
          cases hci : findCaseInsensitivePath pt.routes (CleanPath path)
              pt.redirectTrailingSlash with
          | none => rfl
          | some fixed =>
            have hs := findCaseInsensitivePath_sound pt.routes (CleanPath path) _ fixed hci
            show Pattern.matchURLFuel (n + 1) pt fixed = Pattern.matchURLFuel (m + 1) pt fixed
            rw [matchURLFuel_found n pt fixed hs, matchURLFuel_found m pt fixed hs]
        · rw [if_neg hfp, if_neg hfp]
    · rw [if_neg hg, if_neg hg]

/-- The direct pattern resolution never runs out of fuel. -/
theorem resolveOnceP_ne_fuelOut (pt : Pattern) (path : String) :
    resolveOnceP pt path ≠ .fuelOut := by
  unfold resolveOnceP
  split
  · split
    · split <;> simp
    · simp
  · simp

/-! ## Claim theorems -/

/-- C4: for every Params list `ps` and key `name`, `Params.Param ps name`
returns the value of the first pair of `ps` whose key equals `name`, and
the empty string when no pair's key equals `name`. -/
theorem c4_params_param_first (ps : Params) (name : String) :
    Params.Param ps name =
      ((ps.find? (fun p => p.Key == name)).map Param.Value).getD "" := by
  induction ps with
  | nil => rfl
  | cons p rest ih =>
    simp only [Params.Param, List.find?]
    by_cases h : p.Key = name
    · simp [h]
    · have hb : (p.Key == name) = false := by simp [h]
      simp [h, hb, ih]

/-- C9: `Router.Add` panics when the method string is empty, before any
other check runs; the verb shortcuts always pass a non-empty method
literal, so only direct `Add` calls can trip this panic. -/
theorem c9_empty_method_panics (r : Router) (path : String) (v : Option GoVal) :
    Router.Add r "" path v = .error .emptyMethod
    ∧ Router.GET r path v = r.Add "GET" path v := by
  constructor
  · unfold Router.Add
    rw [if_pos rfl]
  · rfl

/-- C8: `Lookup` is read-only and idempotent: the receiver after a call
is unchanged, and a second call with the same arguments on the resulting
state returns the identical triple. -/
theorem c8_lookup_readonly_idempotent (r : Router) (method path : String) :
    (Router.LookupS r method path).2 = r
    ∧ (Router.LookupS (Router.LookupS r method path).2 method path).1
        = (Router.LookupS r method path).1 :=
  ⟨rfl, rfl⟩

/-- C6: with `/get` registered without a trailing slash and `/post/`
registered with one, looking up `/get/` misses with the trailing-slash
redirect flag set, and looking up `/post` also misses with the flag
set. -/
theorem c6_trailing_slash_symmetry :
    c6Router.Lookup "GET" "/get/" = (none, [], true)
    ∧ c6Router.Lookup "GET" "/post" = (none, [], true) := by
  constructor <;> rfl

/-- C3: a registration with an empty pattern, a pattern not beginning
with `/`, or a nil value panics (on both `Router.Add` and
`Pattern.Add`); with a non-empty `/`-prefixed pattern and a non-nil
value (and, for `Router.Add`, a non-empty method) no such validation
panic occurs: the call either returns normally or raises only a
spec-4.2 registration conflict inside the trie insertion — and when no
conflict exists it returns normally. -/
theorem c3_add_preconditions (r : Router) (pt : Pattern) (method path : String)
    (v : Option GoVal) :
    ((path = "" ∨ path.data.head? ≠ some '/' ∨ v = none) →
      exceptOk (Router.Add r method path v) = false
      ∧ exceptOk (Pattern.Add pt path v) = false)
    ∧ (path.data.head? = some '/' → v ≠ none → method ≠ "" →
      exceptOk (Router.Add r method path v) = true
      ∨ Router.Add r method path v = .error (.conflict path))
    ∧ (path.data.head? = some '/' → v ≠ none →
      exceptOk (Pattern.Add pt path v) = true
      ∨ Pattern.Add pt path v = .error (.conflict path))
    ∧ (path.data.head? = some '/' → v ≠ none → method ≠ "" →
      addConflict (routesFor r.trees method) path = false →
      exceptOk (Router.Add r method path v) = true)
    ∧ (path.data.head? = some '/' → v ≠ none →
      addConflict pt.routes path = false →
      exceptOk (Pattern.Add pt path v) = true) := by
  refine ⟨?_, ?_, ?_, ?_, ?_⟩
  · intro hviol
    have hbad : path.data.head? ≠ some '/' ∨ v = none := by
      rcases hviol with h | h | h
      · left; rw [h]; simp
      · left; exact h
      · right; exact h
    constructor
    · simp only [Router.Add]
      by_cases hm : method = ""
      · rw [if_pos hm]; rfl
      · rw [if_neg hm]
        by_cases hp : path.data.head? ≠ some '/'
        · rw [if_pos hp]; rfl
        · rw [if_neg hp]
          rcases hbad with h | h
          · exact absurd h hp
          · subst h; rfl
    · simp only [Pattern.Add]
      by_cases hp : path.data.head? ≠ some '/'
      · rw [if_pos hp]; rfl
      · rw [if_neg hp]
        rcases hbad with h | h
        · exact absurd h hp
        · subst h; rfl
  · intro hp hv hm
    obtain ⟨w, rfl⟩ := Option.ne_none_iff_exists'.mp hv
    simp only [Router.Add]
    rw [if_neg hm, if_neg (fun hcon => hcon hp)]
    by_cases hc : addConflict (routesFor r.trees method) path = true
    · right; rw [if_pos hc]
    · left; rw [if_neg hc]; rfl
  · intro hp hv
    obtain ⟨w, rfl⟩ := Option.ne_none_iff_exists'.mp hv
    simp only [Pattern.Add]
    rw [if_neg (fun hcon => hcon hp)]
    by_cases hc : addConflict pt.routes path = true
    · right; rw [if_pos hc]
    · left; rw [if_neg hc]; rfl
  · intro hp hv hm hc
    obtain ⟨w, rfl⟩ := Option.ne_none_iff_exists'.mp hv
    simp only [Router.Add]
    rw [if_neg hm, if_neg (fun hcon => hcon hp),
      if_neg (by simp [hc] : ¬ addConflict (routesFor r.trees method) path = true)]
    rfl
  · intro hp hv hc
    obtain ⟨w, rfl⟩ := Option.ne_none_iff_exists'.mp hv
    simp only [Pattern.Add]
    rw [if_neg (fun hcon => hcon hp),
      if_neg (by simp [hc] : ¬ addConflict pt.routes path = true)]
    rfl

/-- Witness for C3: `/`-less and nil-value registrations panic on a
concrete router and pattern; well-formed registrations return normally
on fresh tables; and a duplicate registration panics only with a
registration conflict, never a validation panic. -/
theorem c3_witness :
    (exceptOk (Router.Add Router.New "GET" "nope" (some (.base "v"))) = false
      ∧ exceptOk (Pattern.Add Pattern.NewPattern "nope" (some (.base "v"))) = false)
    ∧ (exceptOk (Router.Add Router.New "GET" "" none) = false
      ∧ exceptOk (Pattern.Add Pattern.NewPattern "" none) = false)
    ∧ (exceptOk (Router.Add c5Router "GET" "/user" (some (.base "w"))) = true
      ∨ Router.Add c5Router "GET" "/user" (some (.base "w")) =
          .error (.conflict "/user"))
    ∧ exceptOk (Router.Add Router.New "GET" "/ok" (some (.base "v"))) = true
    ∧ exceptOk (Pattern.Add Pattern.NewPattern "/ok" (some (.base "v"))) = true :=
  ⟨(c3_add_preconditions Router.New Pattern.NewPattern "GET" "nope"
      (some (.base "v"))).1 (Or.inr (Or.inl (by decide))),
   (c3_add_preconditions Router.New Pattern.NewPattern "GET" ""
      none).1 (Or.inl rfl),
   (c3_add_preconditions c5Router Pattern.NewPattern "GET" "/user"
      (some (.base "w"))).2.1 (by decide) (by decide) (by decide),
   (c3_add_preconditions Router.New Pattern.NewPattern "GET" "/ok"
      (some (.base "v"))).2.2.2.1 (by decide) (by decide) (by decide) (by decide),
   (c3_add_preconditions Router.New Pattern.NewPattern "GET" "/ok"
      (some (.base "v"))).2.2.2.2 (by decide) (by decide) (by decide)⟩

/-- C5: a lookup that finds no value and no trailing-slash redirect
opportunity — including when no tree exists for the method — is a
normal, total result: absent value, empty params, match and redirect
flags both false, for `Lookup` and `Match` alike. -/
theorem c5_no_match_total (r : Router) (method path : String) :
    (lookupTree r.trees method = none →
      r.Lookup method path = (none, [], false)
      ∧ r.Match method path = .ok none [] false)
    ∧ (∀ routes, lookupTree r.trees method = some routes →
        getValue routes path = (none, [], false) →
        r.Lookup method path = (none, [], false)
        ∧ (findCaseInsensitivePath routes (CleanPath path) r.redirectTrailingSlash = none →
            r.Match method path = .ok none [] false)) := by
  constructor
  · intro ht
    constructor
    · unfold Router.Lookup
      rw [ht]
    · show Router.matchFuel (1 + 1) r method path = .ok none [] false
      rw [matchFuel_succ]
      unfold matchStep
      rw [ht]
  · intro routes ht hgv
    constructor
    · unfold Router.Lookup
      simp only [ht]
      exact hgv
    · intro hci
      show Router.matchFuel (1 + 1) r method path = .ok none [] false
      rw [matchFuel_succ]
      unfold matchStep
      simp only [ht, hgv]
      by_cases hg : method ≠ "CONNECT" ∧ path ≠ "/"
      · rw [if_pos hg, if_neg (fun hcon => by simp at hcon)]
        by_cases hfp : r.redirectFixedPath = true
        · rw [if_pos hfp, hci]
        · rw [if_neg hfp]
      · rw [if_neg hg]

/-- A successful `Add` preserves the option flags, never lowers
`maxParams`, and raises it to at least the new pattern's wrapped
(mod 2^16) parameter count plus the synthetic count of the active
mode. -/
theorem add_ok_fields (r : Router) (m p : String) (v : GoVal) (r' : Router)
    (h : r.Add m p (some v) = .ok r') :
    r'.saveMatchedRoutePath = r.saveMatchedRoutePath
    ∧ r'.maxParams ≥ r.maxParams
    ∧ r'.maxParams ≥
        (countParams p + (if r.saveMatchedRoutePath then 1 else 0)) % 65536 := by
  simp only [Router.Add] at h
  split at h
  · exact absurd h (by simp)
  · split at h
    · exact absurd h (by simp)
    · split at h
      · exact absurd h (by simp)
      · injection h with h'
        subst h'
        refine ⟨rfl, ?_, ?_⟩
        · dsimp only
          cases hb : r.saveMatchedRoutePath
          · rw [if_neg (by decide : ¬ (false = true))]
            split <;> omega
          · rw [if_pos (by decide : (true = true))]
            split <;> omega
        · dsimp only
          cases hb : r.saveMatchedRoutePath
          · rw [if_neg (by decide : ¬ (false = true))]
            rw [Nat.mod_add_mod]
            split <;> omega
          · rw [if_pos (by decide : (true = true))]
            rw [Nat.mod_add_mod]
            split <;> omega

theorem runAdds_append (r : Router) (a b : List (String × String × GoVal)) :
    runAdds r (a ++ b) = runAdds (runAdds r a) b := by
  induction a generalizing r with
  | nil => rfl
  | cons x rest ih =>
    obtain ⟨m, p, v⟩ := x
    simp only [List.cons_append, runAdds]
    cases h : r.Add m p (some v) with
    | ok r' => exact ih r'
    | error e => exact ih r

theorem runAdds_maxParams_mono (r : Router) (adds : List (String × String × GoVal)) :
    (runAdds r adds).maxParams ≥ r.maxParams := by
  induction adds generalizing r with
  | nil => exact le_refl _
  | cons x rest ih =>
    obtain ⟨m, p, v⟩ := x
    simp only [runAdds]
    cases h : r.Add m p (some v) with
    | ok r' => exact le_trans (add_ok_fields r m p v r' h).2.1 (ih r')
    | error e => exact ih r

/-- C7 (amended): after any sequence of registrations, `maxParams` is at
least the uint16-wrapped (mod 2^16) parameter count of each successfully
registered pattern plus one when save-matched-route-path mode was
enabled at its registration, and `maxParams` never decreases across
registrations.  The wrap is forced by `router.go` lines 123, 201 and
231-233, where `maxParams`, `varsCount` and `countParams`'s result are
`uint16`. -/
theorem c7_maxParams_invariant (r : Router)
    (adds1 adds2 : List (String × String × GoVal))
    (method path : String) (v : GoVal)
    (hm : method ≠ "") (hp : path.data.head? = some '/')
    (hc : addConflict (routesFor (runAdds r adds1).trees method) path = false) :
    (runAdds r (adds1 ++ (method, path, v) :: adds2)).maxParams ≥
      (countParams path +
        (if (runAdds r adds1).saveMatchedRoutePath then 1 else 0)) % 65536
    ∧ ∀ adds : List (String × String × GoVal),
        (runAdds r adds).maxParams ≥ r.maxParams := by
  constructor
  · rw [runAdds_append]
    simp only [runAdds]
    cases h : (runAdds r adds1).Add method path (some v) with
    | ok r2 =>
      have hf := add_ok_fields (runAdds r adds1) method path v r2 h
      exact le_trans hf.2.2 (runAdds_maxParams_mono r2 adds2)
    | error e =>
      exfalso
      simp only [Router.Add] at h
      rw [if_neg hm, if_neg (fun hcon => hcon hp),
        if_neg (by simp [hc] :
          ¬ addConflict (routesFor (runAdds r adds1).trees method) path = true)] at h
      exact absurd h (by simp)
  · intro adds
    exact runAdds_maxParams_mono r adds

/-- Witness for C7: registering `/a/:b` on a fresh router yields a
`maxParams` of at least its one parameter, and no sequence lowers the
cached maximum. -/
theorem c7_witness :
    (runAdds Router.New [("GET", "/a/:b", .base "x")]).maxParams ≥
      (countParams "/a/:b" +
        (if (runAdds Router.New []).saveMatchedRoutePath then 1 else 0)) % 65536
    ∧ (runAdds Router.New [("GET", "/a/:b", .base "x")]).maxParams ≥
        Router.New.maxParams :=
  ⟨(c7_maxParams_invariant Router.New [] [] "GET" "/a/:b" (.base "x")
      (by decide) (by decide) (by decide)).1,
   (c7_maxParams_invariant Router.New [] [] "GET" "/a/:b" (.base "x")
      (by decide) (by decide) (by decide)).2 [("GET", "/a/:b", .base "x")]⟩

theorem repSeg_splitAux (n : Nat) :
    splitSlashAux (repSeg n) ['a', ':'] = List.replicate (n + 1) [':', 'a'] := by
  induction n with
  | zero => rfl
  | succ k ih =>
    show splitSlashAux ('/' :: ':' :: 'a' :: repSeg k) ['a', ':'] = _
    simp only [splitSlashAux, if_pos rfl,
      if_neg (by decide : ¬ (':' : Char) = '/'),
      if_neg (by decide : ¬ ('a' : Char) = '/')]
    rw [ih]
    rfl

theorem splitSlash_repSeg (n : Nat) :
    splitSlash (repSeg (n + 1)) = [] :: List.replicate (n + 1) [':', 'a'] := by
  show splitSlashAux ('/' :: ':' :: 'a' :: repSeg n) [] = _
  simp only [splitSlashAux, if_pos rfl,
    if_neg (by decide : ¬ (':' : Char) = '/'),
    if_neg (by decide : ¬ ('a' : Char) = '/')]
  rw [repSeg_splitAux]
  rfl

theorem filter_replicate_params (k : Nat) :
    ((List.replicate k ([':', 'a'] : List Char)).filter
      (fun s => isParamSeg s ∨ isCatchSeg s)).length = k := by
  induction k with
  | zero => rfl
  | succ m ih =>
    rw [List.replicate_succ, List.filter_cons]
    rw [if_pos (by decide)]
    rw [List.length_cons, ih]

/-- The counterexample pattern declares exactly 2^16 parameters. -/
theorem countParams_bigPat : countParams bigPat = 65536 := by
  show countParams (repSeg (65535 + 1)).asString = 65535 + 1
  unfold countParams
  rw [data_asString, splitSlash_repSeg]
  rw [show ([] : List Char) :: List.replicate (65535 + 1) [':', 'a'] =
    [([] : List Char)] ++ List.replicate (65535 + 1) [':', 'a'] from rfl]
  rw [List.filter_append, List.length_append]
  rw [filter_replicate_params]
  rfl

theorem hasMisplaced_cons_false (s : List Char) (rest : List (List Char))
    (hs : isCatchSeg s = false) (hr : hasMisplacedCatchAll rest = false) :
    hasMisplacedCatchAll (s :: rest) = false := by
  cases rest with
  | nil => rfl
  | cons t ts => simp [hasMisplacedCatchAll, hs, hr]

theorem hasMisplaced_replicate (k : Nat) :
    hasMisplacedCatchAll (List.replicate k ([':', 'a'] : List Char)) = false := by
  induction k with
  | zero => rfl
  | succ m ih =>
    rw [List.replicate_succ]
    exact hasMisplaced_cons_false _ _ (by decide) ih

theorem addConflict_bigPat : addConflict ([] : Routes) bigPat = false := by
  unfold addConflict catchAllMisplaced
  rw [show bigPat.data = repSeg (65535 + 1) from rfl, splitSlash_repSeg]
  rw [hasMisplaced_cons_false _ _ (by decide) (hasMisplaced_replicate _)]
  rfl

theorem bigPat_head : bigPat.data.head? = some '/' := by
  show (repSeg (65535 + 1)).head? = some '/'
  rfl

/-- A single registration on a fresh router whose uint16-wrapped
parameter count is zero leaves `maxParams` at zero (stated with the
pattern symbolic so that no evaluation of a concrete pattern is ever
needed). -/
theorem runAdds_single_wrap_zero (p : String) (v : GoVal)
    (hp : p.data.head? = some '/')
    (hc : addConflict (routesFor Router.New.trees "GET") p = false)
    (hz : countParams p % 65536 = 0) :
    (runAdds Router.New [("GET", p, v)]).maxParams = 0 := by
  simp only [runAdds]
  cases h : Router.New.Add "GET" p (some v) with
  | error e => rfl
  | ok r2 =>
    simp only [Router.Add] at h
    rw [if_neg (by decide : ¬ ("GET" : String) = ""),
      if_neg (fun hcon => hcon hp),
      if_neg (by simp [hc] :
        ¬ addConflict (routesFor Router.New.trees "GET") p = true)] at h
    injection h with h'
    rw [← h']
    dsimp only
    rw [hz]
    decide

/-- Counterexample for C7 as originally stated: registering a pattern
with 2^16 parameters leaves `maxParams` at 0 because the uint16
parameter count wraps, so `maxParams` is not at least the pattern's
(unwrapped) parameter count. -/
theorem c7_counterexample :
    ¬ ((runAdds Router.New [("GET", bigPat, GoVal.base "x")]).maxParams ≥
        countParams bigPat +
          (if (runAdds Router.New []).saveMatchedRoutePath then 1 else 0)) := by
  have hmax : (runAdds Router.New [("GET", bigPat, GoVal.base "x")]).maxParams = 0 :=
    runAdds_single_wrap_zero bigPat (GoVal.base "x") bigPat_head
      (by rw [show routesFor Router.New.trees "GET" = [] from rfl]
          exact addConflict_bigPat)
      (by rw [countParams_bigPat])
  rw [hmax, countParams_bigPat]
  decide

/-- C10: when the method is CONNECT or the requested path is exactly
`/`, a miss of the underlying lookup returns the empty result with no
redirection attempted, whatever the redirect options; `Pattern.MatchURL`
applies the same exemption for path `/`. -/
theorem c10_connect_and_root_exempt (r : Router) (pt : Pattern)
    (method path : String)
    (hex : method = "CONNECT" ∨ path = "/")
    (hmiss : ∀ routes, lookupTree r.trees method = some routes →
      findMatch routes path = none)
    (hpm : findMatch pt.routes "/" = none) :
    r.Match method path = .ok none [] false
    ∧ pt.MatchURL "/" = .ok none "" false := by
  constructor
  · show Router.matchFuel (1 + 1) r method path = _
    rw [matchFuel_succ]
    simp only [matchStep]
    cases ht : lookupTree r.trees method with
    | none => rfl
    | some routes =>
      simp only [getValue, hmiss routes ht]
      have hgf : ¬ (method ≠ "CONNECT" ∧ path ≠ "/") := by
        rcases hex with h | h
        · exact fun hc => hc.1 h
        · exact fun hc => hc.2 h
      rw [if_neg hgf]
  · show Pattern.matchURLFuel (1 + 1) pt "/" = _
    rw [matchURLFuel_succ]
    simp only [matchURLStep, getValue, hpm]
    rw [if_neg (fun hc : ("/" : String) ≠ "/" => hc rfl)]

/-- Witness for C10: a CONNECT router missing `/path/` and a pattern
missing `/` both return the empty result without redirecting, although
both redirect options are enabled. -/
theorem c10_witness :
    wConnectRouter.Match "CONNECT" "/path/" = .ok none [] false
    ∧ wPatternFix.MatchURL "/" = .ok none "" false :=
  c10_connect_and_root_exempt wConnectRouter wPatternFix "CONNECT" "/path/"
    (Or.inl rfl)
    (by intro routes hr; injection hr with hr'; subst hr'; rfl)
    rfl

/-- Witness for C5: the empty router misses `/nope` with no tree, and a
router with `/user` registered misses `/nope` with no redirect signal;
both return the empty, false-flagged result. -/
theorem c5_witness :
    (Router.New.Lookup "GET" "/nope" = (none, [], false)
      ∧ Router.New.Match "GET" "/nope" = .ok none [] false)
    ∧ (c5Router.Lookup "GET" "/nope" = (none, [], false)
      ∧ c5Router.Match "GET" "/nope" = .ok none [] false) :=
  ⟨(c5_no_match_total Router.New "GET" "/nope").1 rfl,
   ⟨((c5_no_match_total c5Router "GET" "/nope").2 [("/user", .base "u")] rfl rfl).1,
    ((c5_no_match_total c5Router "GET" "/nope").2 [("/user", .base "u")] rfl rfl).2 rfl⟩⟩

/-- C2: with save-matched-route-path mode enabled, `Add` wraps the
value into a (pattern, value) pair at registration time; a successful
`Match` of a wrapped entry unwraps the value and appends the pattern
string as a synthetic parameter after the real captures; a matched entry
that was registered unwrapped (mode toggled on afterwards) makes `Match`
panic. -/
theorem c2_save_matched_route_path (r : Router) (method pat : String) (w : GoVal)
    (hs : r.saveMatchedRoutePath = true) :
    (∀ r', Router.Add r method pat (some w) = .ok r' →
      r'.trees = insertRoute r.trees method pat (GoVal.matchValue pat w))
    ∧ (∀ routes path mp vv ps, lookupTree r.trees method = some routes →
        findMatch routes path = some (GoVal.matchValue mp vv, ps) →
        r.Match method path =
          .ok (some vv) (ps ++ [⟨MatchedRoutePathParam, mp⟩]) true)
    ∧ (∀ routes path s ps, lookupTree r.trees method = some routes →
        findMatch routes path = some (GoVal.base s, ps) →
        r.Match method path = .panicked) := by
  refine ⟨?_, ?_, ?_⟩
  · intro r' h
    simp only [Router.Add] at h
    split at h
    · exact absurd h (by simp)
    · split at h
      · exact absurd h (by simp)
      · split at h
        · exact absurd h (by simp)
        · injection h with h'
          subst h'
          simp [hs]
  · intro routes path mp vv ps ht hfm
    show Router.matchFuel (1 + 1) r method path = _
    rw [matchFuel_succ]
    simp only [matchStep, getValue, ht, hfm, unwrapResult, hs, if_true]
  · intro routes path s ps ht hfm
    show Router.matchFuel (1 + 1) r method path = _
    rw [matchFuel_succ]
    simp only [matchStep, getValue, ht, hfm, unwrapResult, hs, if_true]

/-- Witness for C2: on a save-mode router holding one wrapped and one
unwrapped entry, a new registration is stored wrapped, matching the
wrapped entry unwraps it and appends the synthetic parameter, and
matching the unwrapped entry panics. -/
theorem c2_witness :
    wRouterSaveAdded.trees =
      insertRoute wRouterSave.trees "GET" "/new" (.matchValue "/new" (.base "nv"))
    ∧ wRouterSave.Match "GET" "/wrapped/bob" =
        .ok (some (.base "wv"))
          [⟨"name", "bob"⟩, ⟨MatchedRoutePathParam, "/wrapped/:name"⟩] true
    ∧ wRouterSave.Match "GET" "/plain" = .panicked :=
  ⟨(c2_save_matched_route_path wRouterSave "GET" "/new" (.base "nv") rfl).1
      wRouterSaveAdded rfl,
   (c2_save_matched_route_path wRouterSave "GET" "/wrapped/bob" (.base "nv") rfl).2.1
      [("/wrapped/:name", .matchValue "/wrapped/:name" (.base "wv")),
       ("/plain", .base "pv")]
      "/wrapped/bob" "/wrapped/:name" (.base "wv") [⟨"name", "bob"⟩] rfl rfl,
   (c2_save_matched_route_path wRouterSave "GET" "/plain" (.base "nv") rfl).2.2
      [("/wrapped/:name", .matchValue "/wrapped/:name" (.base "wv")),
       ("/plain", .base "pv")]
      "/plain" "pv" [] rfl rfl⟩

/-- C1: with both redirect options enabled, a lookup miss applies the
redirect policy in the documented order — if the trailing-slash flag was
reported, toggle the slash and re-resolve once; otherwise clean the
path, run case-insensitive recovery, and re-resolve once on success —
and exactly one redirect hop is produced per original request: the
result is fuel-stable from depth 2 (initial resolution plus a single
hop), and each hop is a direct resolution with no further redirect.
The same holds for `Pattern.MatchURL`. -/
theorem c1_redirect_policy_one_hop (r : Router) (method path : String)
    (routes : Routes)
    (hts : r.redirectTrailingSlash = true) (hfp : r.redirectFixedPath = true)
    (htree : lookupTree r.trees method = some routes)
    (hmiss : findMatch routes path = none)
    (hmeth : method ≠ "CONNECT") (hroot : path ≠ "/") :
    (∀ n : Nat, Router.matchFuel (n + 2) r method path = r.Match method path)
    ∧ r.Match method path ≠ .fuelOut
    ∧ r.Match method path =
        (if (findMatch routes (toggleSlash path)).isSome then
          resolveOnce r method (toggleSlash path)
        else
          match findCaseInsensitivePath routes (CleanPath path) true with
          | some fixed => resolveOnce r method fixed
          | none => .ok none [] false)
    ∧ (∀ (pt : Pattern) (q : String),
        pt.redirectTrailingSlash = true → pt.redirectFixedPath = true →
        findMatch pt.routes q = none → q ≠ "/" →
        (∀ n : Nat, Pattern.matchURLFuel (n + 2) pt q = pt.MatchURL q)
        ∧ pt.MatchURL q ≠ .fuelOut
        ∧ pt.MatchURL q =
            (if (findMatch pt.routes (toggleSlash q)).isSome then
              resolveOnceP pt (toggleSlash q)
            else
              match findCaseInsensitivePath pt.routes (CleanPath q) true with
              | some fixed => resolveOnceP pt fixed
              | none => .ok none "" false)) := by
  have char : r.Match method path =
      (if (findMatch routes (toggleSlash path)).isSome then
        resolveOnce r method (toggleSlash path)
      else
        match findCaseInsensitivePath routes (CleanPath path) true with
        | some fixed => resolveOnce r method fixed
        | none => .ok none [] false) := by
    show Router.matchFuel (1 + 1) r method path = _
    rw [matchFuel_succ]
    simp only [matchStep, getValue, htree, hmiss]
    rw [if_pos ⟨hmeth, hroot⟩]
    by_cases hb : (findMatch routes (toggleSlash path)).isSome = true
    · rw [if_pos ⟨hb, hts⟩, if_pos hb]
      exact matchFuel_found 0 r method (toggleSlash path) routes htree hb
    · rw [if_neg (fun hc => hb hc.1), if_pos hfp, if_neg hb, hts]
      cases hci : findCaseInsensitivePath routes (CleanPath path) true with
      | none => rfl
      | some fixed =>
        exact matchFuel_found 0 r method fixed routes htree
          (findCaseInsensitivePath_sound routes (CleanPath path) true fixed hci)
  refine ⟨fun n => matchFuel_stable n 0 r method path, ?_, char, ?_⟩
  · rw [char]
    by_cases hb : (findMatch routes (toggleSlash path)).isSome = true
    · rw [if_pos hb]
      exact resolveOnce_ne_fuelOut r method (toggleSlash path)
    · rw [if_neg hb]
      cases hci : findCaseInsensitivePath routes (CleanPath path) true with
      | none => simp
      | some fixed => exact resolveOnce_ne_fuelOut r method fixed
  · intro pt q hpts hpfp hpm hq
    have charP : pt.MatchURL q =
        (if (findMatch pt.routes (toggleSlash q)).isSome then
          resolveOnceP pt (toggleSlash q)
        else
          match findCaseInsensitivePath pt.routes (CleanPath q) true with
          | some fixed => resolveOnceP pt fixed
          | none => .ok none "" false) := by
      show Pattern.matchURLFuel (1 + 1) pt q = _
      rw [matchURLFuel_succ]
      simp only [matchURLStep, getValue, hpm]
      rw [if_pos hq]
      by_cases hb : (findMatch pt.routes (toggleSlash q)).isSome = true
      · rw [if_pos ⟨hb, hpts⟩, if_pos hb]
        exact matchURLFuel_found 0 pt (toggleSlash q) hb
      · rw [if_neg (fun hc => hb hc.1), if_pos hpfp, if_neg hb, hpts]
        cases hci : findCaseInsensitivePath pt.routes (CleanPath q) true with
        | none => rfl
        | some fixed =>
          exact matchURLFuel_found 0 pt fixed
            (findCaseInsensitivePath_sound pt.routes (CleanPath q) true fixed hci)
    refine ⟨fun n => matchURLFuel_stable n 0 pt q, ?_, charP⟩
    rw [charP]
    by_cases hb : (findMatch pt.routes (toggleSlash q)).isSome = true
    · rw [if_pos hb]
      exact resolveOnceP_ne_fuelOut pt (toggleSlash q)
    · rw [if_neg hb]
      cases hci : findCaseInsensitivePath pt.routes (CleanPath q) true with
      | none => simp
      | some fixed => exact resolveOnceP_ne_fuelOut pt fixed

/-- Witness for C1: a router and a pattern holding `/path`, queried with
the wrong-case `/PATH`: the result is already settled at recursion depth
2 (one redirect hop) and is never a fuel exhaustion. -/
theorem c1_witness :
    Router.matchFuel 7 wRouterFix "GET" "/PATH" = wRouterFix.Match "GET" "/PATH"
    ∧ wRouterFix.Match "GET" "/PATH" ≠ .fuelOut
    ∧ Pattern.matchURLFuel 7 wPatternFix "/PATH" = wPatternFix.MatchURL "/PATH"
    ∧ wPatternFix.MatchURL "/PATH" ≠ .fuelOut := by
  have h := c1_redirect_policy_one_hop wRouterFix "GET" "/PATH"
    [("/path", .base "/path")] rfl rfl rfl rfl (by decide) (by decide)
  have hp := h.2.2.2 wPatternFix "/PATH" rfl rfl rfl (by decide)
  exact ⟨h.1 5, h.2.1, hp.1 5, hp.2.1⟩

end Wrmatch
